import Mathlib

set_option maxRecDepth 10000

/-!
Verification of the CSV-to-JSON conversion pipeline in src/main.py.

The development shallowly embeds the program:

* `cast_value` embeds the coercion function (main.py lines 12-40); the
  Python library primitives `int()`, `float()` and `datetime.strptime`
  are parameters (a `Parsers` bundle), since only their success or
  failure is ever consulted by the routing logic under verification.
  A raised `ValueError` is modelled as `Except.error`.
* `transformCol` / `process_row_body` embed the per-column and per-row
  body of the worker function `process_row` (lines 43-63); a Python
  `KeyError` on a missing dict key is modelled as `WorkerErr.keyError`.
* `producerStep` / `runProducer` embed the producer loop that reads
  rows, deduplicates and enqueues work units (lines 96-115).
* `applyCompletion` / `runWorkers` / `compactResults` embed the shared
  result store (line 78), the workers' store writes (lines 60-63) and
  the final compaction (line 139).  The nondeterminism of which worker
  finishes which unit first is modelled by a schedule: the list of
  dispatched units in the order their store writes happen.  Any
  permutation of the dispatched units that keeps at most a few units
  in flight is realizable with the program's four workers; in
  particular swapping the completion order of two adjacent units is.
-/

/-- A Python calendar date as produced by `datetime.date`. -/
structure PyDate where
  year : Int
  month : Nat
  day : Nat
deriving DecidableEq

/-- A Python `datetime.datetime` value as produced by `strptime`. -/
structure PyDateTime where
  year : Int
  month : Nat
  day : Nat
  hour : Nat
  minute : Nat
  second : Nat
deriving DecidableEq

/-- The `date()` projection of a Python datetime (main.py lines 25-26). -/
def PyDateTime.date (t : PyDateTime) : PyDate :=
  ⟨t.year, t.month, t.day⟩

/-- A JSON-able Python value as stored in a `row_data` dict. -/
inductive Value where
  | null
  | int (n : Int)
  | float (f : Float)
  | str (s : String)
  | date (d : PyDate)
  | datetime (t : PyDateTime)

/-- The Python library parsing primitives used by `cast_value`:
`int(value)`, `float(value)` and `datetime.strptime(value, format)`.
Each returns `none` exactly when the Python call raises `ValueError`.
The routing logic of `cast_value` only consults success or failure, so
the development quantifies over this bundle. -/
structure Parsers where
  int : String → Option Int
  float : String → Option Float
  strptime : String → String → Option PyDateTime

/-- The data carried by the `ValueError` raised at main.py line 39:
its message interpolates only the raw value and the declared data
type (the field name and the row position are not available to
`cast_value` and do not appear in the error). -/
structure ParseError where
  value : String
  dataType : String
deriving DecidableEq

/-- Python truthiness of the `data_format` argument (main.py lines 24,
28): `None` and the empty string are falsy, so a fixed default layout
is used; any other string is used as the layout. -/
def fmtOr (data_format : Option String) (dflt : String) : String :=
  match data_format with
  | some f => if f = "" then dflt else f
  | none => dflt

/-- The body of the `try` block of `cast_value` (main.py lines 18-32)
together with the fall-through `return value` at line 40: dispatch on
`data_type`, returning `none` exactly when the attempted library parse
raises `ValueError`.  The `string` branch and the unknown-type
fall-through both return the raw text unchanged. -/
def tryParse (P : Parsers) (s : String) (data_type : String)
    (data_format : Option String) : Option Value :=
  if data_type = "int" then (P.int s).map Value.int
  else if data_type = "float" then (P.float s).map Value.float
  else if data_type = "date" then
    (P.strptime (fmtOr data_format "%Y-%m-%d") s).map (fun t => Value.date t.date)
  else if data_type = "datetime" then
    (P.strptime (fmtOr data_format "%Y-%m-%d %H:%M:%S") s).map Value.datetime
  else if data_type = "string" then some (Value.str s)
  else some (Value.str s)

/-- Embedding of `cast_value` (main.py lines 12-40).  `value` is
`none` for Python `None` and `some s` for the string `s`; the guard at
line 13 tests `value == "" or value is None`.  On a parse failure the
`except` clause (lines 33-39) recovers under the `flexible` and
`nullable` policies and otherwise raises, modelled as `.error`. -/
def cast_value (P : Parsers) (value : Option String) (data_type : String)
    (data_format : Option String) (default : Value) (type_policy : String) :
    Except ParseError Value :=
  match value with
  | none => if type_policy = "nullable" then .ok Value.null else .ok default
  | some s =>
    if s = "" then
      if type_policy = "nullable" then .ok Value.null else .ok default
    else
      match tryParse P s data_type data_format with
      | some v => .ok v
      | none =>
        if type_policy = "flexible" then .ok (Value.str s)
        else if type_policy = "nullable" then .ok Value.null
        else .error ⟨s, data_type⟩

/-- An error escaping the body of the worker `process_row`: either the
`ValueError` re-raised by `cast_value` under a strict policy, or a
`KeyError` from a mandatory dict access such as `col['field']`
(main.py lines 50 and 55). -/
inductive WorkerErr where
  | parseError (e : ParseError)
  | keyError (key : String)

/-- One column rule of the YAML configuration, i.e. one entry of
`yaml_config['columns']`.  Every key may be absent from the dict, so
each field is an `Option`; `process_row` accesses `col['index']` and
`col['field']` unconditionally (KeyError if absent) and defaults the
rest (main.py lines 50-54). -/
structure ColumnRule where
  index : Option Nat
  type : Option String
  format : Option String
  default : Option Value
  type_policy : Option String
  field : Option String

/-- The field lookup at main.py line 57:
`row[col_index] if col_index < len(row) else None`. -/
def rowLookup (row : List String) (col_index : Nat) : Option String :=
  if h : col_index < row.length then some (row.get ⟨col_index, h⟩) else none

/-- Python dict assignment `row_data[field] = v` on an
insertion-ordered dict modelled as an association list: an existing
key is updated in place, a new key is appended. -/
def dictInsert (d : List (String × Value)) (k : String) (v : Value) :
    List (String × Value) :=
  if d.any (fun p => p.1 = k) then
    d.map (fun p => if p.1 = k then (k, v) else p)
  else d ++ [(k, v)]

/-- The body of the per-column loop of `process_row` (main.py lines
49-58): extract the rule parts (with the source's defaults), look the
raw value up in the row, coerce it and store it under the field name.
A missing `index` or `field` key raises `KeyError`, a strict coercion
failure re-raises the `ValueError` from `cast_value`. -/
def transformCol (P : Parsers) (row : List String)
    (row_data : List (String × Value)) (col : ColumnRule) :
    Except WorkerErr (List (String × Value)) :=
  match col.index with
  | none => .error (.keyError "index")
  | some col_index =>
    let data_type := col.type.getD "string"
    let data_format := col.format
    let default_value := col.default.getD Value.null
    let type_policy := col.type_policy.getD "strict"
    match col.field with
    | none => .error (.keyError "field")
    | some field =>
      match cast_value P (rowLookup row col_index) data_type data_format
          default_value type_policy with
      | .ok v => .ok (dictInsert row_data field v)
      | .error e => .error (.parseError e)

/-- The processing of one dequeued work unit by `process_row` (main.py
lines 48-58): fold the per-column body over `yaml_config['columns']`,
producing the `row_data` dict or the first error raised. -/
def process_row_body (P : Parsers) (columns : List ColumnRule)
    (row : List String) : Except WorkerErr (List (String × Value)) :=
  columns.foldlM (fun acc col => transformCol P row acc col) []

/-- The producer-side mutable state of `process_csv_to_json`: the
`processed_rows` set (line 82, modelled as a duplicate-free list with
set membership), the queue contents in dispatch order, and the three
counters (lines 90-92). -/
structure ProducerState where
  processed_rows : List (List String)
  dispatched : List (Nat × List String)
  unique_row_count : Nat
  ignored_rows : Nat
  row_count : Nat
deriving DecidableEq

/-- The initial producer state (main.py lines 82, 90-92). -/
def initProducerState : ProducerState :=
  ⟨[], [], 0, 0, 0⟩

/-- Python set insertion `processed_rows.add(row_tuple)`: a no-op when
the element is already a member. -/
def setAdd (s : List (List String)) (r : List String) : List (List String) :=
  if r ∈ s then s else s ++ [r]

/-- One iteration of the producer loop (main.py lines 106-115): if the
row tuple is unseen, or `ignore_duplicates` is false, the row is
recorded in the seen set, enqueued with its original enumeration
index, and the unique counter is bumped; otherwise the ignored counter
is bumped.  The row counter is bumped either way. -/
def producerStep (ignore_duplicates : Bool) (st : ProducerState)
    (u : Nat × List String) : ProducerState :=
  if u.2 ∉ st.processed_rows ∨ ignore_duplicates = false then
    ⟨setAdd st.processed_rows u.2, st.dispatched ++ [u],
      st.unique_row_count + 1, st.ignored_rows, st.row_count + 1⟩
  else
    ⟨st.processed_rows, st.dispatched, st.unique_row_count,
      st.ignored_rows + 1, st.row_count + 1⟩

/-- The whole producer loop `for index, row in enumerate(reader)`
(main.py line 106) over the data rows. -/
def runProducer (ignore_duplicates : Bool) (rows : List (List String)) :
    ProducerState :=
  rows.enum.foldl (producerStep ignore_duplicates) initProducerState

/-- A worker's write of a finished record into the shared result store
(main.py lines 60-63): an in-range position overwrites the slot, an
out-of-range position appends at the current end. -/
def applyCompletion {α : Type} (results : List (Option α)) (index : Nat)
    (row_data : α) : List (Option α) :=
  if index < results.length then results.set index (some row_data)
  else results ++ [some row_data]

/-- The result store after all workers are done, as a function of the
schedule σ: the dispatched units in the order in which their store
writes happened.  The store starts as `[None] * 100` (main.py line
78); `transform` is the record the worker computes for a row (the
store writes are agnostic of its content). -/
def runWorkers {α : Type} (transform : List String → α)
    (σ : List (Nat × List String)) : List (Option α) :=
  σ.foldl (fun rs u => applyCompletion rs u.1 (transform u.2))
    (List.replicate 100 none)

/-- The final compaction `[row for row in results if row is not None]`
(main.py line 139). -/
def compactResults {α : Type} (results : List (Option α)) : List α :=
  results.filterMap id

/-- The compacted record sequence handed to the JSON serializer, as a
function of the schedule. -/
def pipelineResults {α : Type} (transform : List String → α)
    (σ : List (Nat × List String)) : List α :=
  compactResults (runWorkers transform σ)

/-- The numeric value of a list of decimal digit characters. -/
def natOfDigits (cs : List Char) : Nat :=
  cs.foldl (fun n c => n * 10 + (c.toNat - 48)) 0

/-- Python `int(s)` on plain base-10 numerals: an optional minus sign
followed by a nonempty run of digits; anything else raises
`ValueError` (returns `none`). -/
def pyIntLit (s : String) : Option Int :=
  match s.data with
  | [] => none
  | '-' :: cs =>
    if cs ≠ [] ∧ cs.all Char.isDigit then some (-(natOfDigits cs : Int)) else none
  | cs => if cs.all Char.isDigit then some (natOfDigits cs) else none

/-- A concrete instantiation of the parser primitives, used to
evaluate the model at specific inputs: integers parse as plain
base-10 numerals (matching Python `int()` there), floats and dates
decline everything. -/
def simpleParsers : Parsers :=
  ⟨pyIntLit, fun _ => none, fun _ _ => none⟩

example : cast_value simpleParsers (some "7") "int" none Value.null "strict"
    = .ok (Value.int 7) := by rfl
example : cast_value simpleParsers (some "x") "int" none Value.null "strict"
    = .error ⟨"x", "int"⟩ := by rfl
example : cast_value simpleParsers (some "x") "int" none Value.null "flexible"
    = .ok (Value.str "x") := by rfl
example : cast_value simpleParsers (some "") "int" none (Value.int 3) "strict"
    = .ok (Value.int 3) := by rfl

/-! ## Helper lemmas about the field coercer -/

lemma cast_value_empty (P : Parsers) (value : Option String)
    (data_type : String) (data_format : Option String) (default : Value)
    (type_policy : String) (h : value = none ∨ value = some "") :
    cast_value P value data_type data_format default type_policy =
      .ok (if type_policy = "nullable" then Value.null else default) := by
  rcases h with h | h <;> subst h <;>
    by_cases hp : type_policy = "nullable" <;> simp [cast_value, hp]

lemma cast_value_error_iff (P : Parsers) (value : Option String)
    (data_type : String) (data_format : Option String) (default : Value)
    (type_policy : String) (e : ParseError) :
    cast_value P value data_type data_format default type_policy = .error e →
      type_policy ≠ "flexible" ∧ type_policy ≠ "nullable" ∧
      ∃ s, value = some s ∧ s ≠ "" ∧
        tryParse P s data_type data_format = none ∧ e = ⟨s, data_type⟩ := by
  intro h
  unfold cast_value at h
  match value with
  | none =>
    by_cases hp : type_policy = "nullable" <;> simp [hp] at h
  | some s =>
    by_cases hs : s = ""
    · subst hs
      by_cases hp : type_policy = "nullable" <;> simp [hp] at h
    · simp only [if_neg hs] at h
      match htp : tryParse P s data_type data_format with
      | some v => rw [htp] at h; exact absurd h (by simp)
      | none =>
        rw [htp] at h
        by_cases hf : type_policy = "flexible"
        · simp [hf] at h
        · by_cases hn : type_policy = "nullable"
          · simp [hf, hn] at h
          · simp only [if_neg hf, if_neg hn, Except.error.injEq] at h
            exact ⟨hf, hn, s, rfl, hs, htp, h.symm⟩

/-! ## Helper lemmas about the producer loop -/

lemma foldl_producerStep_false (units : List (Nat × List String)) :
    ∀ st : ProducerState,
      units.foldl (producerStep false) st =
        ⟨units.foldl (fun s u => setAdd s u.2) st.processed_rows,
          st.dispatched ++ units,
          st.unique_row_count + units.length,
          st.ignored_rows,
          st.row_count + units.length⟩ := by
  induction units with
  | nil => intro st; simp
  | cons u us ih =>
    intro st
    rw [List.foldl_cons, producerStep, if_pos (Or.inr rfl), ih]
    simp only [ProducerState.mk.injEq, List.foldl_cons, List.length_cons]
    refine ⟨trivial, by simp, by omega, trivial, by omega⟩

lemma runProducer_false_dispatched (rows : List (List String)) :
    (runProducer false rows).dispatched = rows.enum := by
  rw [runProducer, foldl_producerStep_false]
  simp [initProducerState]

lemma runProducer_false_ignored (rows : List (List String)) :
    (runProducer false rows).ignored_rows = 0 := by
  rw [runProducer, foldl_producerStep_false]
  rfl

lemma foldl_setAdd_enum (l : List (List String)) (init : List (List String)) :
    l.enum.foldl (fun s u => setAdd s u.2) init = l.foldl setAdd init := by
  conv_rhs => rw [← List.enum_map_snd l, List.foldl_map]

lemma runProducer_false_processed (rows : List (List String)) :
    (runProducer false rows).processed_rows = rows.foldl setAdd [] := by
  rw [runProducer, foldl_producerStep_false]
  exact foldl_setAdd_enum rows []

lemma foldl_producerStep_dispatched_sub (ig : Bool) (units : List (Nat × List String)) :
    ∀ (st : ProducerState) (u : Nat × List String),
      u ∈ (units.foldl (producerStep ig) st).dispatched →
      u ∈ st.dispatched ∨ u ∈ units := by
  induction units with
  | nil => intro st u h; exact Or.inl h
  | cons v vs ih =>
    intro st u h
    rw [List.foldl_cons] at h
    rcases ih _ u h with h' | h'
    · rw [producerStep] at h'
      by_cases hc : v.2 ∉ st.processed_rows ∨ ig = false
      · rw [if_pos hc] at h'
        rcases List.mem_append.mp h' with h'' | h''
        · exact Or.inl h''
        · have huv : u = v := List.mem_singleton.mp h''
          subst huv
          exact Or.inr (List.mem_cons_self u vs)
      · rw [if_neg hc] at h'
        exact Or.inl h'
    · exact Or.inr (List.mem_cons_of_mem v h')

lemma runProducer_dispatched_sub (ig : Bool) (rows : List (List String)) :
    ∀ u ∈ (runProducer ig rows).dispatched, u ∈ rows.enum := by
  intro u h
  rcases foldl_producerStep_dispatched_sub ig rows.enum initProducerState u h with h' | h'
  · exact absurd h' (List.not_mem_nil u)
  · exact h'

/-! ## Helper lemmas about the shared result store -/

lemma foldl_applyCompletion_getElem {α : Type} (transform : List String → α)
    (g : Nat → α) (σ : List (Nat × List String)) :
    ∀ (rs : List (Option α)),
      rs.length = 100 →
      (∀ u ∈ σ, u.1 < 100 ∧ transform u.2 = g u.1) →
      (σ.foldl (fun rs u => applyCompletion rs u.1 (transform u.2)) rs).length = 100 ∧
      ∀ j : Nat,
        (σ.foldl (fun rs u => applyCompletion rs u.1 (transform u.2)) rs)[j]? =
          if j ∈ σ.map Prod.fst then some (some (g j)) else rs[j]? := by
  induction σ with
  | nil =>
    intro rs hlen _
    exact ⟨hlen, fun j => by simp⟩
  | cons u us ih =>
    intro rs hlen hσ
    have hu := hσ u (List.mem_cons_self u us)
    have hstep : applyCompletion rs u.1 (transform u.2)
        = rs.set u.1 (some (transform u.2)) := by
      rw [applyCompletion, if_pos (by rw [hlen]; exact hu.1)]
    rw [List.foldl_cons, hstep]
    have hlen' : (rs.set u.1 (some (transform u.2))).length = 100 := by
      rw [List.length_set]; exact hlen
    obtain ⟨ihlen, ihget⟩ := ih (rs.set u.1 (some (transform u.2))) hlen'
      (fun v hv => hσ v (List.mem_cons_of_mem u hv))
    refine ⟨ihlen, fun j => ?_⟩
    rw [ihget j]
    by_cases hj : j ∈ us.map Prod.fst
    · rw [if_pos hj, if_pos (by simp [hj])]
    · rw [if_neg hj, List.getElem?_set]
      by_cases he : u.1 = j
      · subst he
        rw [if_pos rfl, if_pos (by rw [hlen]; exact hu.1), hu.2,
          if_pos (by simp)]
      · rw [if_neg he]
        have hnot : j ∉ (u :: us).map Prod.fst := by
          simp only [List.map_cons, List.mem_cons]
          push_neg
          exact ⟨fun hh => he hh.symm, hj⟩
        rw [if_neg hnot]

lemma runWorkers_canonical {α : Type} (transform : List String → α) (g : Nat → α)
    (L σ : List (Nat × List String)) (hperm : σ.Perm L)
    (hL : ∀ u ∈ L, u.1 < 100 ∧ transform u.2 = g u.1) :
    runWorkers transform σ =
      (List.range 100).map
        (fun j => if j ∈ L.map Prod.fst then some (g j) else none) := by
  have hσ : ∀ u ∈ σ, u.1 < 100 ∧ transform u.2 = g u.1 :=
    fun u hu => hL u (hperm.mem_iff.mp hu)
  obtain ⟨hlen, hget⟩ := foldl_applyCompletion_getElem transform g σ
    (List.replicate 100 none) (by simp) hσ
  have hmem : ∀ j : Nat, j ∈ σ.map Prod.fst ↔ j ∈ L.map Prod.fst :=
    fun j => (hperm.map Prod.fst).mem_iff
  apply List.ext_getElem?
  intro j
  rw [runWorkers, hget j, List.getElem?_map]
  by_cases hj : j < 100
  · rw [List.getElem?_range hj]
    by_cases hin : j ∈ L.map Prod.fst
    · rw [if_pos ((hmem j).mpr hin)]
      simp [hin]
    · rw [if_neg (fun hh => hin ((hmem j).mp hh)), List.getElem?_replicate,
        if_pos hj]
      simp [hin]
  · have hout : j ∉ σ.map Prod.fst := by
      intro hh
      rcases List.mem_map.mp hh with ⟨u, hu, he⟩
      exact hj (he ▸ (hσ u hu).1)
    rw [if_neg hout, List.getElem?_replicate, if_neg hj,
      List.getElem?_eq_none (by simpa using hj)]
    rfl

lemma filterMap_if_mem {α : Type} (g : Nat → α) (q : Nat → Prop)
    [DecidablePred q] (l : List Nat) :
    (l.map (fun j => if q j then some (g j) else none)).filterMap id
      = (l.filter (fun j => decide (q j))).map g := by
  induction l with
  | nil => rfl
  | cons a l ih =>
    by_cases h : q a <;> simp [h, ih]

lemma pipelineResults_canonical {α : Type} (transform : List String → α)
    (g : Nat → α) (L σ : List (Nat × List String)) (hperm : σ.Perm L)
    (hL : ∀ u ∈ L, u.1 < 100 ∧ transform u.2 = g u.1) :
    pipelineResults transform σ =
      ((List.range 100).filter
        (fun j => decide (j ∈ L.map Prod.fst))).map g := by
  rw [pipelineResults, compactResults,
    runWorkers_canonical transform g L σ hperm hL]
  exact filterMap_if_mem g (fun j => j ∈ L.map Prod.fst) (List.range 100)

lemma filter_range_lt (n : Nat) :
    ∀ m, (List.range m).filter (fun j => decide (j < n)) = List.range (min n m) := by
  intro m
  induction m with
  | zero => simp
  | succ m ih =>
    rw [List.range_succ, List.filter_append, ih]
    by_cases h : m < n
    · rw [show min n (m + 1) = m + 1 by omega, show min n m = m by omega,
        List.range_succ]
      simp [h]
    · rw [show min n (m + 1) = min n m by omega]
      simp [h]

lemma map_range_getD {α : Type} (transform : List String → α)
    (rows : List (List String)) :
    (List.range rows.length).map (fun j => transform (rows.getD j []))
      = rows.map transform := by
  apply List.ext_getElem?
  intro j
  rw [List.getElem?_map, List.getElem?_map]
  by_cases h : j < rows.length
  · rw [List.getElem?_range h, List.getElem?_eq_getElem h]
    simp [List.getD, List.getElem?_eq_getElem h]
  · rw [List.getElem?_eq_none (by simpa using h),
      List.getElem?_eq_none (by omega)]
    rfl

lemma mem_enum_char (rows : List (List String)) (u : Nat × List String)
    (h : u ∈ rows.enum) : u.1 < rows.length ∧ u.2 = rows.getD u.1 [] := by
  obtain ⟨i, x⟩ := u
  rw [List.enum_eq_enumFrom] at h
  obtain ⟨-, h2, h3⟩ := List.mem_enumFrom h
  simp only [Nat.zero_add] at h2
  refine ⟨h2, ?_⟩
  simp only [Nat.sub_zero] at h3
  rw [h3]
  simp [List.getD, List.getElem?_eq_getElem h2]

lemma pipelineResults_under_capacity {α : Type} (transform : List String → α)
    (ignore_duplicates : Bool) (rows : List (List String))
    (σ : List (Nat × List String))
    (hperm : σ.Perm (runProducer ignore_duplicates rows).dispatched)
    (hcap : rows.length ≤ 100) :
    pipelineResults transform σ =
      ((List.range 100).filter (fun j =>
        decide (j ∈ ((runProducer ignore_duplicates rows).dispatched).map Prod.fst))).map
        (fun j => transform (rows.getD j [])) := by
  apply pipelineResults_canonical transform _ _ σ hperm
  intro u hu
  have hm := runProducer_dispatched_sub ignore_duplicates rows u hu
  have hc := mem_enum_char rows u hm
  exact ⟨lt_of_lt_of_le hc.1 hcap, by rw [hc.2]⟩

lemma pipelineResults_no_dedup {α : Type} (transform : List String → α)
    (rows : List (List String)) (σ : List (Nat × List String))
    (hperm : σ.Perm (runProducer false rows).dispatched)
    (hcap : rows.length ≤ 100) :
    pipelineResults transform σ = rows.map transform := by
  rw [pipelineResults_under_capacity transform false rows σ hperm hcap,
    runProducer_false_dispatched, List.enum_map_fst]
  have hq : ((List.range 100).filter (fun j => decide (j ∈ List.range rows.length)))
      = (List.range 100).filter (fun j => decide (j < rows.length)) := by
    apply List.filter_congr
    intro j _
    exact decide_eq_decide.mpr List.mem_range
  rw [hq, filter_range_lt, show min rows.length 100 = rows.length by omega,
    map_range_getD]

/-! ## Helper lemmas about the deduplicating producer -/

lemma foldl_producerStep_count (ig : Bool) (units : List (Nat × List String)) :
    ∀ st : ProducerState,
      (units.foldl (producerStep ig) st).dispatched.length +
        (units.foldl (producerStep ig) st).ignored_rows =
      st.dispatched.length + st.ignored_rows + units.length := by
  induction units with
  | nil => intro st; simp
  | cons u us ih =>
    intro st
    rw [List.foldl_cons, ih, producerStep]
    split
    · simp only [List.length_append, List.length_cons, List.length_nil]
      omega
    · simp only [List.length_cons]
      omega

lemma foldl_producerStep_true_mem (rows : List (List String)) :
    ∀ (k : Nat) (st : ProducerState) (i : Nat) (r : List String),
      (i, r) ∈ ((List.enumFrom k rows).foldl (producerStep true) st).dispatched ↔
        (i, r) ∈ st.dispatched ∨
        ∃ j, j < rows.length ∧ i = k + j ∧ rows.getD j [] = r ∧
          r ∉ st.processed_rows ∧ r ∉ rows.take j := by
  induction rows with
  | nil =>
    intro k st i r
    simp
  | cons row rest ih =>
    intro k st i r
    rw [List.enumFrom_cons, List.foldl_cons]
    by_cases hmem : row ∈ st.processed_rows
    · have hcond : ¬((k, row).2 ∉ st.processed_rows ∨ true = false) := by
        simp [hmem]
      rw [producerStep, if_neg hcond, ih]
      constructor
      · rintro (h | ⟨j, hj, hi, hg, hp, ht⟩)
        · exact Or.inl h
        · refine Or.inr ⟨j + 1, by simpa using hj, by omega, hg, hp, ?_⟩
          rw [List.take_succ_cons]
          intro hc
          rcases List.mem_cons.mp hc with hc | hc
          · exact hp (hc ▸ hmem)
          · exact ht hc
      · rintro (h | ⟨j, hj, hi, hg, hp, ht⟩)
        · exact Or.inl h
        · rcases j with _ | j
          · have hr : row = r := by simpa using hg
            exact absurd (hr ▸ hmem) hp
          · refine Or.inr ⟨j, by simpa using hj, by omega, hg, hp, fun hc => ?_⟩
            apply ht
            rw [List.take_succ_cons]
            exact List.mem_cons_of_mem row hc
    · have hcond : ((k, row).2 ∉ st.processed_rows ∨ true = false) := Or.inl hmem
      rw [producerStep, if_pos hcond, ih]
      have hset : setAdd st.processed_rows row = st.processed_rows ++ [row] := by
        rw [setAdd, if_neg hmem]
      rw [hset]
      constructor
      · rintro (h | ⟨j, hj, hi, hg, hp, ht⟩)
        · rcases List.mem_append.mp h with h | h
          · exact Or.inl h
          · have he : (i, r) = (k, row) := List.mem_singleton.mp h
            have hik : i = k := congrArg Prod.fst he
            have hrr : r = row := congrArg Prod.snd he
            refine Or.inr ⟨0, by simp, by omega, by simp [hrr], hrr ▸ hmem, by simp⟩
        · have hp' : r ∉ st.processed_rows ∧ r ≠ row := by
            constructor
            · intro hc; exact hp (List.mem_append_left _ hc)
            · intro hc; exact hp (List.mem_append_right _ (by simp [hc]))
          refine Or.inr ⟨j + 1, by simpa using hj, by omega, hg, hp'.1, ?_⟩
          rw [List.take_succ_cons]
          intro hc
          rcases List.mem_cons.mp hc with hc | hc
          · exact hp'.2 hc
          · exact ht hc
      · rintro (h | ⟨j, hj, hi, hg, hp, ht⟩)
        · exact Or.inl (List.mem_append_left _ h)
        · rcases j with _ | j
          · have hi' : i = k := by omega
            have hg' : row = r := by simpa using hg
            refine Or.inl (List.mem_append_right _ ?_)
            simp [hi', hg'.symm]
          · have ht' : r ≠ row ∧ r ∉ rest.take j := by
              rw [List.take_succ_cons] at ht
              exact ⟨fun hc => ht (by simp [hc]), fun hc => ht (List.mem_cons_of_mem _ hc)⟩
            refine Or.inr ⟨j, by simpa using hj, by omega, hg, ?_, ht'.2⟩
            intro hc
            rcases List.mem_append.mp hc with hc | hc
            · exact hp hc
            · exact ht'.1 (List.mem_singleton.mp hc)

lemma foldl_producerStep_processed (ig : Bool) (units : List (Nat × List String)) :
    ∀ st : ProducerState,
      (units.foldl (producerStep ig) st).processed_rows =
        units.foldl (fun s u => setAdd s u.2) st.processed_rows := by
  induction units with
  | nil => intro st; rfl
  | cons u us ih =>
    intro st
    rw [List.foldl_cons, List.foldl_cons, ih, producerStep]
    split
    · rfl
    · rename_i hc
      push_neg at hc
      rw [setAdd, if_pos hc.1]

lemma runProducer_processed (ig : Bool) (rows : List (List String)) :
    (runProducer ig rows).processed_rows = rows.foldl setAdd [] := by
  rw [runProducer, foldl_producerStep_processed]
  exact foldl_setAdd_enum rows []

lemma runProducer_true_mem (rows : List (List String)) (i : Nat)
    (r : List String) :
    (i, r) ∈ (runProducer true rows).dispatched ↔
      i < rows.length ∧ rows.getD i [] = r ∧ r ∉ rows.take i := by
  rw [runProducer, List.enum_eq_enumFrom, foldl_producerStep_true_mem]
  constructor
  · rintro (h | ⟨j, hj, hi, hg, -, ht⟩)
    · exact absurd h (List.not_mem_nil _)
    · have : i = j := by omega
      subst this
      exact ⟨hj, hg, ht⟩
  · rintro ⟨hj, hg, ht⟩
    exact Or.inr ⟨i, hj, by omega, hg, List.not_mem_nil r, ht⟩

/-! ## Claim C1 -/

/-- C1 (amended): with duplicates disabled and every row transformed
successfully (the worker record is the total function `transform` of
the raw row), the compacted output has exactly one record per input
row, in exactly the input order, for every completion schedule of the
workers — provided the number of input rows does not exceed the 100
slots the result store is pre-sized to (main.py line 78).  Beyond
that capacity the append fallback of main.py line 63 places records
in completion order, and the claim fails (see the counterexample). -/
theorem order_preserved_under_capacity {α : Type} (transform : List String → α)
    (rows : List (List String)) (σ : List (Nat × List String))
    (hperm : σ.Perm (runProducer false rows).dispatched)
    (hcap : rows.length ≤ 100) :
    pipelineResults transform σ = rows.map transform :=
  pipelineResults_no_dedup transform rows σ hperm hcap

/-- Witness for the order preservation theorem: two rows whose store
writes happen in reversed order still come out in input order. -/
theorem order_preserved_under_capacity_witness :
    pipelineResults (fun r => r) [(1, ["b"]), (0, ["a"])] = [["a"], ["b"]] :=
  order_preserved_under_capacity (fun r => r) [["a"], ["b"]]
    [(1, ["b"]), (0, ["a"])] (by decide) (by decide)

/-- C1 counterexample: 102 input rows with duplicates disabled, and a
schedule in which positions 0..99 complete in order, then position
101 completes before position 100 (realizable: the two units are
taken by different workers and the later one finishes first).  The
store holds 100 slots, so record 101 is appended at physical slot
100, and the indexed write for position 100 then overwrites it
(main.py lines 60-63): the compacted output has 101 records, not one
per input row.  The schedule is a permutation of the dispatched
units, so the claimed property fails despite order-independent
dispatch. -/
theorem order_preserved_cex :
    (((List.range 100).map (fun i => (i, ["x"]))) ++
        [(101, ["x"]), (100, ["x"])]).Perm
      (runProducer false (List.replicate 102 ["x"])).dispatched ∧
    (pipelineResults (fun r => r)
        (((List.range 100).map (fun i => (i, ["x"]))) ++
          [(101, ["x"]), (100, ["x"])])).length ≠
      (List.replicate 102 ["x"]).length := by
  exact ⟨by decide, by decide⟩

/-! ## Claim C3 -/

/-- C3 (amended): for a fixed input and schema the pipeline output is
independent of worker scheduling — the conversion is a deterministic
function of input and schema — provided the number of input rows does
not exceed the store's pre-sized capacity of 100 (main.py line 78).
Any two completion schedules of the dispatched units yield the same
compacted record sequence; time-based statistics are outside the
model.  Beyond 100 rows the appends of main.py line 63 happen in
completion order and two runs can differ (see the counterexample). -/
theorem deterministic_under_capacity {α : Type} (transform : List String → α)
    (ignore_duplicates : Bool) (rows : List (List String))
    (σ1 σ2 : List (Nat × List String))
    (h1 : σ1.Perm (runProducer ignore_duplicates rows).dispatched)
    (h2 : σ2.Perm (runProducer ignore_duplicates rows).dispatched)
    (hcap : rows.length ≤ 100) :
    pipelineResults transform σ1 = pipelineResults transform σ2 := by
  rw [pipelineResults_under_capacity transform ignore_duplicates rows σ1 h1 hcap,
    pipelineResults_under_capacity transform ignore_duplicates rows σ2 h2 hcap]

/-- Witness for the determinism theorem: the two possible completion
orders of two rows give the same output. -/
theorem deterministic_under_capacity_witness :
    pipelineResults (fun r => r) [(0, ["a"]), (1, ["b"])] =
      pipelineResults (fun r => r) [(1, ["b"]), (0, ["a"])] :=
  deterministic_under_capacity (fun r => r) false [["a"], ["b"]]
    [(0, ["a"]), (1, ["b"])] [(1, ["b"]), (0, ["a"])]
    (by decide) (by decide) (by decide)

/-- C3 counterexample: with 102 input rows two realizable schedules —
all units completing in dispatch order, versus position 101 writing
before position 100 — give different compacted outputs (102 records
versus 101, because the indexed write for position 100 overwrites the
appended record 101).  Both schedules are permutations of the same
dispatched units, so two runs of the pipeline on identical input and
schema can produce different output. -/
theorem deterministic_cex :
    ((List.range 102).map (fun i => (i, ["x"]))).Perm
      (runProducer false (List.replicate 102 ["x"])).dispatched ∧
    (((List.range 100).map (fun i => (i, ["x"]))) ++
        [(101, ["x"]), (100, ["x"])]).Perm
      (runProducer false (List.replicate 102 ["x"])).dispatched ∧
    pipelineResults (fun r => r) ((List.range 102).map (fun i => (i, ["x"]))) ≠
      pipelineResults (fun r => r)
        (((List.range 100).map (fun i => (i, ["x"]))) ++
          [(101, ["x"]), (100, ["x"])]) := by
  exact ⟨by decide, by decide, by decide⟩

/-! ## Further helper lemmas about the row transformer -/

lemma transformCol_some (P : Parsers) (row : List String)
    (acc : List (String × Value)) (col : ColumnRule) (i : Nat) (f : String)
    (hidx : col.index = some i) (hf : col.field = some f) :
    transformCol P row acc col =
      match cast_value P (rowLookup row i) (col.type.getD "string") col.format
          (col.default.getD Value.null) (col.type_policy.getD "strict") with
      | .ok v => .ok (dictInsert acc f v)
      | .error e => .error (.parseError e) := by
  obtain ⟨ci, ct, cfo, cd, cp, cfd⟩ := col
  cases hidx
  cases hf
  rfl

lemma cast_value_strict_fail (P : Parsers) (s data_type : String)
    (data_format : Option String) (default : Value)
    (hs : s ≠ "") (hfail : tryParse P s data_type data_format = none) :
    cast_value P (some s) data_type data_format default "strict" =
      .error ⟨s, data_type⟩ := by
  simp only [cast_value, if_neg hs, hfail]
  rfl

/-! ## Claim C2 -/

/-- C2 (code bug): at the spec's failing input — a strict int column
applied to raw value "x" — the error the worker raises carries only
the raw value and the data type (main.py line 39 interpolates just
those); the very same error results whatever the column's field name
is, so the error cannot report the field name, nor the row position
(which `cast_value` never receives).  In the program the raised
ValueError moreover only kills the worker thread: `q.task_done()` is
never called for the failed unit, so `q.join()` (main.py line 125)
blocks forever and no output document is produced, instead of the
run failing with the promised report. -/
theorem strict_failure_error_content (P : Parsers) (f1 f2 : String)
    (hP : P.int "x" = none) :
    transformCol P ["x"] [] ⟨some 0, some "int", none, none, none, some f1⟩
      = .error (.parseError ⟨"x", "int"⟩) ∧
    transformCol P ["x"] [] ⟨some 0, some "int", none, none, none, some f1⟩
      = transformCol P ["x"] [] ⟨some 0, some "int", none, none, none, some f2⟩ := by
  have htp : tryParse P "x" "int" none = none := by
    rw [tryParse, if_pos rfl, hP]
    rfl
  have h : ∀ f : String,
      transformCol P ["x"] [] ⟨some 0, some "int", none, none, none, some f⟩
        = .error (.parseError ⟨"x", "int"⟩) := by
    intro f
    rw [transformCol_some P ["x"] [] _ 0 f rfl rfl]
    have hcv : cast_value P (rowLookup ["x"] 0) "int" none Value.null "strict"
        = .error ⟨"x", "int"⟩ :=
      cast_value_strict_fail P "x" "int" none Value.null (by decide) htp
    rw [show ((⟨some 0, some "int", none, none, none, some f⟩ :
        ColumnRule).type.getD "string") = "int" from rfl]
    exact hcv ▸ rfl
  exact ⟨h f1, (h f1).trans (h f2).symm⟩

/-- Witness for the C2 failing-input theorem, at the concrete parser
instantiation. -/
theorem strict_failure_error_content_witness :
    transformCol simpleParsers ["x"] []
        ⟨some 0, some "int", none, none, none, some "id"⟩
      = .error (.parseError ⟨"x", "int"⟩) ∧
    transformCol simpleParsers ["x"] []
        ⟨some 0, some "int", none, none, none, some "id"⟩
      = transformCol simpleParsers ["x"] []
        ⟨some 0, some "int", none, none, none, some "when"⟩ :=
  strict_failure_error_content simpleParsers "id" "when" (by decide)

/-! ## Claim C4 -/

/-- C4 (amended): a column rule lacking the field name is not caught
before row processing: the producer dispatches rows regardless of
the column rules (its loop never reads them), and the malformed rule
raises a KeyError for "field" only when a worker transforms a row
(main.py line 55), whatever the row and however far the fold has
come. -/
theorem missing_field_during_processing (P : Parsers) (col : ColumnRule)
    (i : Nat) (row : List String) (acc : List (String × Value))
    (rows2 : List (List String))
    (hidx : col.index = some i) (hf : col.field = none) :
    transformCol P row acc col = .error (.keyError "field") ∧
    (runProducer false rows2).dispatched = rows2.enum := by
  refine ⟨?_, runProducer_false_dispatched rows2⟩
  obtain ⟨ci, ct, cfo, cd, cp, cfd⟩ := col
  cases hidx
  cases hf
  rfl

/-- Witness for the C4 theorem at a concrete malformed rule. -/
theorem missing_field_during_processing_witness :
    transformCol simpleParsers ["a"] []
        ⟨some 0, none, none, none, none, none⟩ = .error (.keyError "field") ∧
    (runProducer false [["a"]]).dispatched = [(0, ["a"])] :=
  missing_field_during_processing simpleParsers
    ⟨some 0, none, none, none, none, none⟩ 0 ["a"] [] [["a"]] rfl rfl

/-- C4 counterexample: under a schema whose only column rule lacks a
field name, a row IS dispatched (refuting "no row is dispatched or
transformed under such a schema"), and the error — a per-row
KeyError inside the worker, not a pre-run SchemaError — arises only
when the dispatched row is transformed. -/
theorem schema_error_cex :
    (runProducer false [["a"]]).dispatched = [(0, ["a"])] ∧
    process_row_body simpleParsers
      [⟨some 0, none, none, none, none, none⟩] ["a"]
      = .error (.keyError "field") := by
  exact ⟨by decide, rfl⟩

/-! ## Claim C5 -/

/-- C5: for every column rule and every absent or empty raw value,
coercion returns null exactly when the null policy is nullable, and
otherwise returns the rule's default value — which may itself be
null/unset (main.py lines 13-16). -/
theorem empty_value_default (P : Parsers) (value : Option String)
    (data_type : String) (data_format : Option String) (default : Value)
    (type_policy : String) (h : value = none ∨ value = some "") :
    cast_value P value data_type data_format default type_policy =
      .ok (if type_policy = "nullable" then Value.null else default) :=
  cast_value_empty P value data_type data_format default type_policy h

/-- Witness for the C5 theorem: an empty string under the nullable
policy coerces to null. -/
theorem empty_value_default_witness :
    cast_value simpleParsers (some "") "int" none (Value.int 3) "nullable" =
      .ok (if ("nullable" : String) = "nullable" then Value.null
        else Value.int 3) :=
  empty_value_default simpleParsers (some "") "int" none (Value.int 3)
    "nullable" (Or.inr rfl)

/-! ## Claim C6 -/

/-- C6: a non-empty raw value on which the declared type's parse
fails coerces to the raw text unchanged under the flexible policy,
to null under nullable, and raises the parse error under strict
(main.py lines 33-39); and coercion never fails any other way: every
error it can return arises from a strict-like (neither flexible nor
nullable) policy on a non-empty value whose parse failed, and names
that value and the declared type. -/
theorem malformed_value_policy_routing (P : Parsers) (s : String)
    (data_type : String) (data_format : Option String) (default : Value)
    (hs : s ≠ "") (hfail : tryParse P s data_type data_format = none) :
    cast_value P (some s) data_type data_format default "flexible"
      = .ok (Value.str s) ∧
    cast_value P (some s) data_type data_format default "nullable"
      = .ok Value.null ∧
    cast_value P (some s) data_type data_format default "strict"
      = .error ⟨s, data_type⟩ ∧
    ∀ (type_policy : String) (value : Option String) (e : ParseError),
      cast_value P value data_type data_format default type_policy = .error e →
      type_policy ≠ "flexible" ∧ type_policy ≠ "nullable" ∧
      ∃ s', value = some s' ∧ s' ≠ "" ∧
        tryParse P s' data_type data_format = none ∧ e = ⟨s', data_type⟩ := by
  refine ⟨?_, ?_, cast_value_strict_fail P s data_type data_format default hs hfail,
    fun type_policy value e =>
      cast_value_error_iff P value data_type data_format default type_policy e⟩
  · simp only [cast_value, if_neg hs, hfail]
    rfl
  · simp only [cast_value, if_neg hs, hfail]
    rfl

/-- Witness for the C6 theorem at a concrete malformed value. -/
theorem malformed_value_policy_routing_witness :
    cast_value simpleParsers (some "x") "int" none (Value.int 3) "flexible"
      = .ok (Value.str "x") ∧
    cast_value simpleParsers (some "x") "int" none (Value.int 3) "nullable"
      = .ok Value.null ∧
    cast_value simpleParsers (some "x") "int" none (Value.int 3) "strict"
      = .error ⟨"x", "int"⟩ := by
  have h := malformed_value_policy_routing simpleParsers "x" "int" none
    (Value.int 3) (by decide) (by rfl)
  exact ⟨h.1, h.2.1, h.2.2.1⟩

/-! ## Claim C7 -/

/-- C7: with ignoreDuplicates enabled, a unit is dispatched exactly
when it is the first occurrence of its row content (the row at its
position, not seen among the earlier rows); every other row is
excluded and counted, so dispatched plus ignored accounts for every
input row; every forwarded row is recorded in the seen set; and on
the spec's concrete input the run ignores exactly one duplicate and,
for every completion schedule, outputs exactly the two records for
["a","1"] and ["b","2"], in that order. -/
theorem dedup_first_occurrences {α : Type} (rows : List (List String))
    (i : Nat) (r : List String) (t : List String → α)
    (σ : List (Nat × List String))
    (hσ : σ.Perm (runProducer true [["a","1"], ["a","1"], ["b","2"]]).dispatched) :
    ((i, r) ∈ (runProducer true rows).dispatched ↔
      i < rows.length ∧ rows.getD i [] = r ∧ r ∉ rows.take i) ∧
    (runProducer true rows).dispatched.length
        + (runProducer true rows).ignored_rows = rows.length ∧
    (runProducer true rows).processed_rows = rows.foldl setAdd [] ∧
    (runProducer true [["a","1"], ["a","1"], ["b","2"]]).ignored_rows = 1 ∧
    pipelineResults t σ = [t ["a","1"], t ["b","2"]] := by
  refine ⟨runProducer_true_mem rows i r, ?_,
    runProducer_processed true rows, by decide, ?_⟩
  · have hc := foldl_producerStep_count true rows.enum initProducerState
    simpa [runProducer, initProducerState, List.enum_length] using hc
  · have hd : (runProducer true [["a","1"], ["a","1"], ["b","2"]]).dispatched
        = [(0, ["a","1"]), (2, ["b","2"])] := by decide
    rw [hd] at hσ
    rw [pipelineResults_canonical t
      (fun j => if j = 0 then t ["a","1"] else t ["b","2"])
      [(0, ["a","1"]), (2, ["b","2"])] σ hσ ?hL]
    case hL =>
      rintro u hu
      rcases List.mem_cons.mp hu with rfl | hu
      · exact ⟨by omega, rfl⟩
      · rcases List.mem_cons.mp hu with rfl | hu
        · exact ⟨by omega, rfl⟩
        · exact absurd hu (List.not_mem_nil u)
    have hf : ((List.range 100).filter
        (fun j => decide (j ∈ ([(0, ["a","1"]), (2, ["b","2"])] :
          List (Nat × List String)).map Prod.fst))) = [0, 2] := by decide
    rw [hf]
    simp

/-- Witness for the C7 theorem: a schedule completing the two
dispatched units in reverse still gives the two records in input
order, with one duplicate counted. -/
theorem dedup_first_occurrences_witness :
    pipelineResults (fun r => r) [(2, ["b","2"]), (0, ["a","1"])]
      = [["a","1"], ["b","2"]] ∧
    (runProducer true [["a","1"], ["a","1"], ["b","2"]]).ignored_rows = 1 := by
  have h := dedup_first_occurrences (α := List String)
    [["a","1"], ["a","1"], ["b","2"]] 0 ["a","1"] (fun r => r)
    [(2, ["b","2"]), (0, ["a","1"])] (by decide)
  exact ⟨h.2.2.2.2, h.2.2.2.1⟩

/-! ## Claim C8 -/

/-- C8 (amended): with ignoreDuplicates false every input row —
including exact repeats — is forwarded with its original position
and the duplicate counter stays zero; but the seen-row set is still
populated: the producer records every forwarded row in it (main.py
line 110 runs in the always-taken branch), so after the run the set
holds every distinct row content. -/
theorem no_dedup_all_forwarded (rows : List (List String)) :
    (runProducer false rows).dispatched = rows.enum ∧
    (runProducer false rows).ignored_rows = 0 ∧
    (runProducer false rows).processed_rows = rows.foldl setAdd [] :=
  ⟨runProducer_false_dispatched rows, runProducer_false_ignored rows,
    runProducer_false_processed rows⟩

/-- C8 counterexample: with duplicates disabled the seen-row set is
populated anyway — after a single row it is nonempty, refuting "the
set of seen rows is never populated during the run". -/
theorem no_dedup_seen_set_cex :
    (runProducer false [["a"]]).processed_rows ≠ [] := by decide

/-! ## Claim C9 -/

/-- C9: a column rule whose source index is at or beyond the row's
length yields an absent value from the field lookup (main.py line
57), which takes the empty-value branch of coercion — null under the
nullable policy, the rule's default otherwise — and never an error. -/
theorem out_of_range_index_absent (P : Parsers) (row : List String) (i : Nat)
    (data_type : String) (data_format : Option String) (default : Value)
    (type_policy : String) (h : row.length ≤ i) :
    rowLookup row i = none ∧
    cast_value P (rowLookup row i) data_type data_format default type_policy =
      .ok (if type_policy = "nullable" then Value.null else default) := by
  have hl : rowLookup row i = none := by
    rw [rowLookup, dif_neg (by omega)]
  exact ⟨hl, by
    rw [hl]
    exact cast_value_empty P none data_type data_format default type_policy
      (Or.inl rfl)⟩

/-- Witness for the C9 theorem: index 5 into a one-cell row is
absent and coerces to the default under the strict policy. -/
theorem out_of_range_index_absent_witness :
    rowLookup ["a"] 5 = none ∧
    cast_value simpleParsers (rowLookup ["a"] 5) "int" none (Value.int 9)
        "strict" =
      .ok (if ("strict" : String) = "nullable" then Value.null
        else Value.int 9) :=
  out_of_range_index_absent simpleParsers ["a"] 5 "int" none (Value.int 9)
    "strict" (by decide)

/-! ## Claim C10 -/

/-- C10: every null policy value other than "flexible" and
"nullable" — misspellings included — makes coercion behave exactly
as under "strict" (the policy is only ever compared against those
two literals: main.py lines 14, 34, 36), and an absent type_policy
key defaults to "strict" (main.py line 54).  With the C5 and C6
theorems this gives: empty values yield the default, parse failures
raise. -/
theorem unknown_policy_strict (P : Parsers) (value : Option String)
    (data_type : String) (data_format : Option String) (default : Value)
    (type_policy : String) (col : ColumnRule)
    (h1 : type_policy ≠ "flexible") (h2 : type_policy ≠ "nullable")
    (hcol : col.type_policy = none) :
    cast_value P value data_type data_format default type_policy =
      cast_value P value data_type data_format default "strict" ∧
    col.type_policy.getD "strict" = "strict" := by
  refine ⟨?_, by rw [hcol]; rfl⟩
  rcases value with _ | s
  · simp [cast_value, h2]
  · by_cases hs : s = ""
    · subst hs
      simp [cast_value, h2]
    · simp only [cast_value, if_neg hs]
      cases htp : tryParse P s data_type data_format with
      | some v => rfl
      | none => simp [h1, h2]

/-- Witness for the C10 theorem at the misspelled policy "strcit". -/
theorem unknown_policy_strict_witness :
    cast_value simpleParsers (some "x") "int" none (Value.int 3) "strcit" =
      cast_value simpleParsers (some "x") "int" none (Value.int 3) "strict" ∧
    (ColumnRule.mk (some 0) (some "int") none none none
        (some "id")).type_policy.getD "strict" = "strict" :=
  unknown_policy_strict simpleParsers (some "x") "int" none (Value.int 3)
    "strcit" ⟨some 0, some "int", none, none, none, some "id"⟩
    (by decide) (by decide) rfl
